import Mathlib

/-!
Verification development for the admin utility of the `nventuro.art`
repository (`src/scripts/admin.mjs`).  The utility is a local HTTP server
with three pure-ish cores which we embed shallowly:

* `slugify`    — title → identifier normalisation (admin.mjs lines 11–18);
* `getMetadata`— scan of the record store for categorical values and
                 used identifiers (lines 20–49);
* `handleSave` — the save pipeline: validation, collision checks, photo
                 and record writes, icon-presence warnings (lines 51–134).

The filesystem is modelled explicitly as a `Store` value: three
directories (`src/content/miniatures`, `src/assets/photos`,
`src/assets/logos`) each holding a list of files in chronological write
order.  Node's synchronous fs calls become pure reads/updates of this
state, so "writes no file" is literally "the returned `Store` equals the
input `Store`".  JavaScript strings are modelled as Lean `String`
(operating on `List Char`); JS regexes are translated operationally,
including backtracking where it matters (`getMetadata`'s line pattern).
-/

namespace Admin

/-! ### Character classes

`\s` in a JS regex matches the ECMAScript WhiteSpace and LineTerminator
characters.  `\w` matches `[A-Za-z0-9_]`. -/

/-- JS regex `\s`: ECMAScript whitespace and line terminators (the
code points `U+2000`–`U+200A` are listed one by one). -/
def isJsSpace (c : Char) : Bool :=
  c = ' ' || c = '\t' || c = '\n' || c = '\r' ||
  c = Char.ofNat 0x0b || c = Char.ofNat 0x0c ||
  c = Char.ofNat 0xa0 || c = Char.ofNat 0x1680 ||
  c = Char.ofNat 0x2000 || c = Char.ofNat 0x2001 || c = Char.ofNat 0x2002 ||
  c = Char.ofNat 0x2003 || c = Char.ofNat 0x2004 || c = Char.ofNat 0x2005 ||
  c = Char.ofNat 0x2006 || c = Char.ofNat 0x2007 || c = Char.ofNat 0x2008 ||
  c = Char.ofNat 0x2009 || c = Char.ofNat 0x200a ||
  c = Char.ofNat 0x2028 || c = Char.ofNat 0x2029 ||
  c = Char.ofNat 0x202f || c = Char.ofNat 0x205f ||
  c = Char.ofNat 0x3000 || c = Char.ofNat 0xfeff

/-- `a`–`z`. -/
def isLowerAZ (c : Char) : Bool := 'a' ≤ c && c ≤ 'z'

/-- `0`–`9`. -/
def isDigit09 (c : Char) : Bool := '0' ≤ c && c ≤ '9'

/-- The character class `[a-z0-9\s-]` of `slugify`'s first replace:
characters NOT in it are stripped. -/
def keepChar (c : Char) : Bool :=
  isLowerAZ c || isDigit09 c || isJsSpace c || c = '-'

/-- JS regex `\w`: `[A-Za-z0-9_]`. -/
def isWordChar (c : Char) : Bool :=
  isLowerAZ c || isDigit09 c || ('A' ≤ c && c ≤ 'Z') || c = '_'

/-! ### slugify (admin.mjs lines 11–18)

The source chains `toLowerCase()` with four global regex replaces:
strip the class complement `[^a-z0-9\s-]`, then `\s+` to a single
hyphen, then `-+` to a single hyphen, then `^-` and `-$` to nothing.

Each global replace is translated into a total list function.
Replacing `\s+` globally by `-` turns every maximal whitespace run into
a single hyphen; we realise it by a left scan that remembers whether
the previous character was whitespace.  Likewise for hyphen runs.
The final replace removes one leading and one trailing hyphen. -/

/-- Global replace of a maximal run of `p`-characters by a single
hyphen, realised as a left scan; `prev` records whether the previous
input character satisfied `p` (i.e. we are inside a run whose hyphen
was already emitted). -/
def collapseAux (p : Char → Bool) : Bool → List Char → List Char
  | _, [] => []
  | prev, c :: rest =>
    if p c then
      if prev then collapseAux p true rest
      else '-' :: collapseAux p true rest
    else c :: collapseAux p false rest

/-- Global replace of `\s+` by a hyphen. -/
def collapseWs (s : List Char) : List Char := collapseAux isJsSpace false s

/-- Global replace of `-+` by a hyphen. -/
def collapseHy (s : List Char) : List Char := collapseAux (· == '-') false s

/-- Remove one leading `'-'` if present. -/
def dropLeadHy : List Char → List Char
  | '-' :: rest => rest
  | s => s

/-- Global replace of `^-` or `-$` by nothing: one leading and one
trailing hyphen are removed (the global match visits each position
once, so at most one of each; on the input `"-"` only the leading
alternative fires). -/
def trimHy (s : List Char) : List Char :=
  ((dropLeadHy s).reverse |> dropLeadHy).reverse

/-- `slugify` on character lists.  `String.toLower` maps each character
through `Char.toLower` exactly as JS `toLowerCase` does on the ASCII
range (the only range the later filter can retain). -/
def slugifyL (s : List Char) : List Char :=
  trimHy (collapseHy (collapseWs ((s.map Char.toLower).filter keepChar)))

/-- `slugify` on strings (admin.mjs lines 11–18). -/
def slugify (s : String) : String := ⟨slugifyL s.data⟩

example : slugify "Space Marine Intercessor" = "space-marine-intercessor" := by decide
example : slugify "  -- Héllo,  World! --  " = "hllo-world" := by decide
example : slugify "!!!" = "" := by decide
example : slugify "-" = "" := by decide

/-! ### The filesystem model

`handleSave` touches three directories rooted at the project:
`src/content/miniatures` (the record store, `<slug>.yaml` files),
`src/assets/photos` (`<slug>[-k].png` files) and `src/assets/logos`
(icon assets, addressed by paths such as `manufacturers/foo.png`).
Each is a list of files in chronological write order; `existsSync`
becomes membership of the file name, `writeFileSync` appends. -/

/-- The portion of the filesystem the admin server reads and writes.
`miniFiles` and `photoFiles` pair each file name with its content
(content of photo files: the written byte payload, represented by the
base64 text after data-URI stripping — `handleSave` never re-reads
photo bytes, so the representation is never inspected).  `logoFiles`
holds the paths (relative to the logos directory) that exist; logos are
only ever tested with `existsSync`, never written. -/
structure Store where
  miniFiles : List (String × String)
  photoFiles : List (String × String)
  logoFiles : List String
deriving Repr, DecidableEq

/-- The parsed JSON body of a save request (admin.mjs line 53).
`game`, `faction`, `order` may be absent (`none` covers JSON `null` and
a missing key; JS truthiness additionally discards `""` and `0`). -/
structure Submission where
  title : String
  manufacturer : String
  date : String
  scale : String
  game : Option String
  faction : Option String
  order : Option Int
  photos : List String
deriving Repr, DecidableEq

/-- The three response shapes `handleSave` can return: status 400 with
an error message, status 409 with an error message, or status 200 with
`message`, `slug`, `files` and `warnings` (admin.mjs lines 56, 61, 66,
76, 125–133). -/
inductive SaveResult where
  | validationError (msg : String)
  | conflictError (msg : String)
  | ok (msg : String) (slug : String) (files : List String) (warnings : List String)
deriving Repr, DecidableEq

/-- Whether a `SaveResult` is the status-200 shape. -/
def SaveResult.isOk : SaveResult → Bool
  | .ok _ _ _ _ => true
  | _ => false

/-- The `warnings` component of a status-200 response. -/
def SaveResult.getWarnings : SaveResult → Option (List String)
  | .ok _ _ _ w => some w
  | _ => none

/-- JS truthiness of a string: `""` is falsy, all other strings truthy. -/
def truthyStr (s : String) : Bool := !(s == "")

/-- JS truthiness of an optional string field (absent and `""` falsy). -/
def truthyOptStr : Option String → Bool
  | none => false
  | some s => truthyStr s

/-- JS truthiness of the optional integer `order` (absent and `0` falsy). -/
def truthyOptInt : Option Int → Bool
  | none => false
  | some n => !(n == 0)

/-- The guard of admin.mjs line 55:
`!title || !manufacturer || !date || !scale || !photos?.length`. -/
def requiredMissing (sub : Submission) : Bool :=
  !truthyStr sub.title || !truthyStr sub.manufacturer ||
  !truthyStr sub.date || !truthyStr sub.scale || sub.photos.isEmpty

/-- Target photo file name for position `i` (admin.mjs lines 72–73):
position 0 gets no suffix, position `i > 0` the suffix `-(i+1)`. -/
def photoFilename (slug : String) (i : Nat) : String :=
  if i = 0 then slug ++ ".png" else slug ++ "-" ++ toString (i + 1) ++ ".png"

/-- `existsSync` of `<slug>.yaml` in the miniatures directory (line 65). -/
def yamlExists (store : Store) (slug : String) : Bool :=
  store.miniFiles.any (fun p => p.1 == slug ++ ".yaml")

/-- `existsSync` of a file name in the photos directory (line 75). -/
def photoExists (store : Store) (fn : String) : Bool :=
  store.photoFiles.any (fun p => p.1 == fn)

/-- `existsSync` of a path relative to the logos directory (lines 109,
114, 120). -/
def logoExists (store : Store) (rel : String) : Bool :=
  store.logoFiles.any (fun p => p == rel)

/-- The check loop of lines 71–79 returns at the FIRST position whose
target file exists; afterwards no target exists.  We compute that first
position. -/
def firstPhotoConflict (store : Store) (slug : String) (n : Nat) : Option Nat :=
  (List.range n).find? (fun i => photoExists store (photoFilename slug i))

/-- Strip the data-URI header (line 83): global-once replace of the
pattern `data:image` + slash + `\w+;base64,` anchored at the start.
With a maximal word-character run after the fixed prefix, either the
literal `;base64,` follows and the whole header is dropped, or the
pattern cannot match at all (no backtracking can help, since `\w`
and `;` are disjoint). -/
def stripDataUriL (l : List Char) : List Char :=
  if l.take 11 = "data:image/".data then
    let rest := l.drop 11
    let w := rest.takeWhile isWordChar
    let rest2 := rest.drop w.length
    if !w.isEmpty && rest2.take 8 = ";base64,".data then rest2.drop 8 else l
  else l

def stripDataUri (s : String) : String := ⟨stripDataUriL s.data⟩

example : stripDataUri "data:image/png;base64,AAAA" = "AAAA" := by decide
example : stripDataUri "AAAA" = "AAAA" := by decide

/-- The photo bullet line of the record (lines 88–89). -/
def photoBullet (fn : String) : String :=
  "  - \"../../assets/photos/" ++ fn ++ "\""

/-- Line 99: `if (game) yaml += ...` — the text appended for `game`. -/
def gamePart (sub : Submission) : String :=
  match sub.game with
  | some g => if truthyStr g then "\ngame: \"" ++ g ++ "\"" else ""
  | none => ""

/-- Line 100: the text appended for `faction`. -/
def factionPart (sub : Submission) : String :=
  match sub.faction with
  | some f => if truthyStr f then "\nfaction: \"" ++ f ++ "\"" else ""
  | none => ""

/-- Line 101: the text appended for `order`. -/
def orderPart (sub : Submission) : String :=
  match sub.order with
  | some n => if n ≠ 0 then "\norder: " ++ toString n else ""
  | none => ""

/-- The record text built at lines 92–102: fixed header with title,
photos block, manufacturer, date, scale; then `game`, `faction`,
`order` lines appended only when the corresponding value is truthy;
then a final newline. -/
def recordYaml (sub : Submission) (targets : List String) : String :=
  "title: \"" ++ sub.title ++ "\"\nphotos:\n" ++
    String.intercalate "\n" (targets.map photoBullet) ++
    "\nmanufacturer: \"" ++ sub.manufacturer ++ "\"\ndate: " ++ sub.date ++
    "\nscale: \"" ++ sub.scale ++ "\"" ++
  gamePart sub ++ factionPart sub ++ orderPart sub ++ "\n"

/-- The missing-logo warnings of lines 107–123, in push order:
manufacturer, then game (when truthy), then faction (when truthy);
each value is slugified and looked up under its namespace. -/
def saveWarnings (store : Store) (sub : Submission) : List String :=
  (if !logoExists store ("manufacturers/" ++ slugify sub.manufacturer ++ ".png")
   then ["Missing logo: manufacturers/" ++ slugify sub.manufacturer ++ ".png"]
   else []) ++
  (match sub.game with
   | some g =>
     if truthyStr g then
       if !logoExists store ("games/" ++ slugify g ++ ".png")
       then ["Missing logo: games/" ++ slugify g ++ ".png"] else []
     else []
   | none => []) ++
  (match sub.faction with
   | some f =>
     if truthyStr f then
       if !logoExists store ("factions/" ++ slugify f ++ ".png")
       then ["Missing logo: factions/" ++ slugify f ++ ".png"] else []
     else []
   | none => [])

/-- The success message of line 128. -/
def savedMessage (title : String) (n : Nat) : String :=
  "Saved \"" ++ title ++ "\" (" ++ toString n ++ " photo" ++
    (if n > 1 then "s" else "") ++ ")"

def MINIATURES_DIR : String := "src/content/miniatures"
def PHOTOS_DIR : String := "src/assets/photos"

/-- `handleSave` (admin.mjs lines 51–134) over the `Store` model.
Returns the response together with the filesystem after the call.
The check loop of lines 71–79 is rendered as `firstPhotoConflict`
(first conflicting position, if any) and, on the no-conflict branch,
the collected `photoFilenames` list becomes `targets` zipped with the
stripped payloads.  Writes happen in source order: each photo in
submission order (lines 82–85), then the record file (line 104). -/
def handleSave (store : Store) (sub : Submission) : SaveResult × Store :=
  if requiredMissing sub then
    (.validationError "Missing required fields", store)
  else
    let slug := slugify sub.title
    if slug = "" then
      (.validationError "Title produces an empty slug", store)
    else if yamlExists store slug then
      (.conflictError ("A miniature with slug \"" ++ slug ++ "\" already exists"), store)
    else
      match firstPhotoConflict store slug sub.photos.length with
      | some i =>
        (.conflictError ("Photo file \"" ++ photoFilename slug i ++ "\" already exists"), store)
      | none =>
        let targets := (List.range sub.photos.length).map (photoFilename slug)
        let written := targets.zip (sub.photos.map stripDataUri)
        let yaml := recordYaml sub targets
        ( .ok (savedMessage sub.title sub.photos.length) slug
            ((MINIATURES_DIR ++ "/" ++ slug ++ ".yaml") ::
              targets.map (fun t => PHOTOS_DIR ++ "/" ++ t))
            (saveWarnings store sub),
          { store with
              photoFiles := store.photoFiles ++ written,
              miniFiles := store.miniFiles ++ [(slug ++ ".yaml", yaml)] } )

/-! ### getMetadata (admin.mjs lines 20–49)

Each `.yaml` file of the record store is split into lines and each
line matched against the pattern `^(\w+):` followed by
`\s*` + optional quote + `([^"]+)` + optional quote + `\s*$`.
The matcher below reproduces the backtracking search of the regex
engine: the leftmost components backtrack last, greedy pieces try
their longest extent first, and an optional quote prefers to match. -/

/-- Match `\s*"?([^"]+)"?\s*$` against the text after the colon,
returning capture group 2.  Choice points are tried in engine order:
the leading `\s*` from longest to shortest, the opening quote
preferring present, the `[^"]+` capture from its maximal non-quote run
downward, the closing quote preferring present; the trailing `\s*$`
just requires the rest to be whitespace. -/
def matchValue (t : List Char) : Option (List Char) :=
  ((List.range ((t.takeWhile isJsSpace).length + 1)).reverse).findSome? fun a =>
    let t1 := t.drop a
    let bOpts : List Bool := if t1.head? = some '"' then [true, false] else [false]
    bOpts.findSome? fun b =>
      let t2 := if b then t1.tail else t1
      let run := (t2.takeWhile (fun c => !(c = '"'))).length
      (((List.range run).map (· + 1)).reverse).findSome? fun c =>
        let value := t2.take c
        let t3 := t2.drop c
        let dOpts : List Bool := if t3.head? = some '"' then [true, false] else [false]
        dOpts.findSome? fun d =>
          let t4 := if d then t3.tail else t3
          if t4.all isJsSpace then some value else none

/-- Match the whole line pattern of admin.mjs line 30, returning the
key (capture 1) and the value (capture 2). -/
def matchKV (line : String) : Option (String × String) :=
  let l := line.data
  let key := l.takeWhile isWordChar
  if key.isEmpty then none
  else
    match l.drop key.length with
    | ':' :: rest =>
      match matchValue rest with
      | some v => some (⟨key⟩, ⟨v⟩)
      | none => none
    | _ => none

example : matchKV "manufacturer: \"Games Workshop\"" =
    some ("manufacturer", "Games Workshop") := by decide
example : matchKV "date: 2024-01-01" = some ("date", "2024-01-01") := by decide
example : matchKV "photos:" = none := by decide
example : matchKV "  - \"../../assets/photos/x.png\"" = none := by decide
example : matchKV "" = none := by decide

/-- JS `content.split('\n')` on character lists: segments between the
newline characters; an empty string gives one empty segment, a
trailing newline a trailing empty segment. -/
def splitNlL : List Char → List (List Char)
  | [] => [[]]
  | c :: rest =>
    if c = '\n' then [] :: splitNlL rest
    else
      match splitNlL rest with
      | s :: ss => (c :: s) :: ss
      | [] => [[c]]

/-- JS `content.split('\n')` (admin.mjs line 29). -/
def splitNl (s : String) : List String := (splitNlL s.data).map String.mk

example : splitNl "a\nb" = ["a", "b"] := by decide
example : splitNl "" = [""] := by decide
example : splitNl "a\n" = ["a", ""] := by decide

/-- JS `f.endsWith(suffix)` (admin.mjs line 26). -/
def strEndsWith (s suffix : String) : Bool := suffix.data.isSuffixOf s.data

example : strEndsWith "foo.yaml" ".yaml" = true := by decide
example : strEndsWith "foo.png" ".yaml" = false := by decide

/-- The four accumulating `Set`s of lines 21–24, as insertion-ordered
duplicate-free lists. -/
structure SetsAcc where
  manufacturers : List String
  games : List String
  factions : List String
  scales : List String
deriving Repr, DecidableEq

/-- `Set.add`: append the value unless already present. -/
def addVal (s : List String) (v : String) : List String :=
  if v ∈ s then s else s ++ [v]

/-- Processing of one line (lines 30–36): on a pattern match, dispatch
on the key through the if/else chain; any other key is ignored. -/
def processLine (acc : SetsAcc) (line : String) : SetsAcc :=
  match matchKV line with
  | none => acc
  | some (k, v) =>
    if k = "manufacturer" then { acc with manufacturers := addVal acc.manufacturers v }
    else if k = "game" then { acc with games := addVal acc.games v }
    else if k = "faction" then { acc with factions := addVal acc.factions v }
    else if k = "scale" then { acc with scales := addVal acc.scales v }
    else acc

/-- Processing of one record file: `content.split('\n')`, then each
line in order (lines 28–37). -/
def processFile (acc : SetsAcc) (content : String) : SetsAcc :=
  (splitNl content).foldl processLine acc

/-- The response shape of `getMetadata` (lines 42–48). -/
structure Metadata where
  manufacturers : List String
  games : List String
  factions : List String
  scales : List String
  slugs : List String
deriving Repr, DecidableEq

/-- JS `[...set].sort()` on the deduplicated value lists: the default
comparator sorts strings lexicographically; on a duplicate-free list
the sorted permutation is unique, so insertion sort by `≤` on `String`
realises it. -/
def sortStr (l : List String) : List String := l.insertionSort (· ≤ ·)

/-- Global-once replace of `.yaml` anchored at the end, for the file
names of the directory listing. -/
def dropYamlExt (f : String) : String :=
  if strEndsWith f ".yaml" then ⟨f.data.take (f.data.length - 5)⟩ else f

/-- `getMetadata` (lines 20–49): filter the directory listing to
`.yaml` files, accumulate the four categorical sets over every line of
every file, sort each, and list the slugs as the file names with the
extension stripped, in directory order. -/
def getMetadata (store : Store) : Metadata :=
  let files := store.miniFiles.filter (fun f => strEndsWith f.1 ".yaml")
  let acc := files.foldl (fun a f => processFile a f.2) ⟨[], [], [], []⟩
  { manufacturers := sortStr acc.manufacturers
    games := sortStr acc.games
    factions := sortStr acc.factions
    scales := sortStr acc.scales
    slugs := files.map (fun f => dropYamlExt f.1) }

/-! ### Branch lemmas for `handleSave` -/

theorem truthyStr_false_iff {s : String} : truthyStr s = false ↔ s = "" := by
  simp [truthyStr]

theorem requiredMissing_false_iff {sub : Submission} :
    requiredMissing sub = false ↔
      sub.title ≠ "" ∧ sub.manufacturer ≠ "" ∧ sub.date ≠ "" ∧ sub.scale ≠ "" ∧
      sub.photos ≠ [] := by
  simp only [requiredMissing, truthyStr, Bool.or_eq_false_iff, Bool.not_eq_false',
    beq_iff_eq, ← List.isEmpty_iff, Bool.not_eq_true, ne_eq, Bool.not_eq_true',
    beq_eq_false_iff_ne]
  tauto

theorem handleSave_requiredMissing {store : Store} {sub : Submission}
    (h : requiredMissing sub = true) :
    handleSave store sub = (.validationError "Missing required fields", store) := by
  simp [handleSave, h]

theorem handleSave_emptySlug {store : Store} {sub : Submission}
    (hreq : requiredMissing sub = false) (h : slugify sub.title = "") :
    handleSave store sub = (.validationError "Title produces an empty slug", store) := by
  simp [handleSave, hreq, h]

theorem handleSave_slugConflict {store : Store} {sub : Submission}
    (hreq : requiredMissing sub = false) (hslug : slugify sub.title ≠ "")
    (h : yamlExists store (slugify sub.title) = true) :
    handleSave store sub =
      (.conflictError ("A miniature with slug \"" ++ slugify sub.title ++ "\" already exists"),
       store) := by
  simp [handleSave, hreq, hslug, h]

theorem handleSave_photoConflict {store : Store} {sub : Submission} {i : Nat}
    (hreq : requiredMissing sub = false) (hslug : slugify sub.title ≠ "")
    (hyaml : yamlExists store (slugify sub.title) = false)
    (h : firstPhotoConflict store (slugify sub.title) sub.photos.length = some i) :
    handleSave store sub =
      (.conflictError ("Photo file \"" ++ photoFilename (slugify sub.title) i ++
          "\" already exists"), store) := by
  simp [handleSave, hreq, hslug, hyaml, h]

theorem handleSave_success {store : Store} {sub : Submission}
    (hreq : requiredMissing sub = false) (hslug : slugify sub.title ≠ "")
    (hyaml : yamlExists store (slugify sub.title) = false)
    (hph : firstPhotoConflict store (slugify sub.title) sub.photos.length = none) :
    handleSave store sub =
      (.ok (savedMessage sub.title sub.photos.length) (slugify sub.title)
        ((MINIATURES_DIR ++ "/" ++ slugify sub.title ++ ".yaml") ::
          ((List.range sub.photos.length).map (photoFilename (slugify sub.title))).map
            (fun t => PHOTOS_DIR ++ "/" ++ t))
        (saveWarnings store sub),
      { store with
          photoFiles := store.photoFiles ++
            ((List.range sub.photos.length).map (photoFilename (slugify sub.title))).zip
              (sub.photos.map stripDataUri),
          miniFiles := store.miniFiles ++
            [(slugify sub.title ++ ".yaml",
              recordYaml sub ((List.range sub.photos.length).map
                (photoFilename (slugify sub.title))))] }) := by
  simp [handleSave, hreq, hslug, hyaml, hph]

theorem firstPhotoConflict_eq_none_iff {store : Store} {slug : String} {n : Nat} :
    firstPhotoConflict store slug n = none ↔
      ∀ i < n, photoExists store (photoFilename slug i) = false := by
  simp [firstPhotoConflict, List.find?_eq_none]

theorem firstPhotoConflict_isSome {store : Store} {slug : String} {n : Nat} {i : Nat}
    (hi : i < n) (hp : photoExists store (photoFilename slug i) = true) :
    ∃ j, firstPhotoConflict store slug n = some j := by
  rw [← Option.isSome_iff_exists, firstPhotoConflict, List.find?_isSome]
  exact ⟨i, List.mem_range.2 hi, hp⟩

/-- `List.find?` over `List.range n` returns the least index satisfying
the predicate. -/
theorem find?_range_first {p : Nat → Bool} {n i : Nat} (hi : i < n) (hp : p i = true)
    (hmin : ∀ j < i, p j = false) : (List.range n).find? p = some i := by
  rw [List.find?_eq_some]
  refine ⟨hp, List.range i, List.range' (i + 1) (n - i - 1), ?_, ?_⟩
  · rw [List.range_eq_range', List.range_eq_range']
    have h1 : List.range' (i + 1) (n - i - 1) = List.range' (i + 1) (n - i - 1) 1 := rfl
    have h2 : (i : Nat) :: List.range' (i + 1) (n - i - 1) 1 =
        List.range' i (n - i - 1 + 1) 1 := by
      rw [List.range'_succ]
    rw [h1, h2]
    have h3 : n - i - 1 + 1 = n - i := by omega
    rw [h3]
    have h4 := List.range'_append 0 i (n - i) 1
    simp only [Nat.mul_comm, Nat.zero_add, Nat.mul_one, Nat.one_mul] at h4
    rw [h4]
    congr 1
    omega
  · intro a ha
    simp [hmin a (List.mem_range.1 ha)]

theorem firstPhotoConflict_first {store : Store} {slug : String} {n i : Nat}
    (hi : i < n) (hp : photoExists store (photoFilename slug i) = true)
    (hmin : ∀ j < i, photoExists store (photoFilename slug j) = false) :
    firstPhotoConflict store slug n = some i :=
  find?_range_first hi hp hmin

/-- C1: if a required field (title, manufacturer, date, scale) is
empty, or the photo sequence is empty, or the derived slug's record
file already exists, or any derived image filename already exists,
then `handleSave` returns an error response (status 400 or 409) and
leaves the filesystem exactly as it was: no record, photo or logo file
is written. -/
theorem handleSave_error_writes_nothing (store : Store) (sub : Submission)
    (h : sub.title = "" ∨ sub.manufacturer = "" ∨ sub.date = "" ∨ sub.scale = "" ∨
         sub.photos = [] ∨ yamlExists store (slugify sub.title) = true ∨
         ∃ i, i < sub.photos.length ∧
           photoExists store (photoFilename (slugify sub.title) i) = true) :
    ((∃ m, handleSave store sub = (.validationError m, store)) ∨
     (∃ m, handleSave store sub = (.conflictError m, store))) := by
  by_cases hreq : requiredMissing sub = true
  · exact Or.inl ⟨_, handleSave_requiredMissing hreq⟩
  · rw [Bool.not_eq_true] at hreq
    obtain ⟨ht, hm, hd, hs, hp⟩ := requiredMissing_false_iff.1 hreq
    by_cases hslug : slugify sub.title = ""
    · exact Or.inl ⟨_, handleSave_emptySlug hreq hslug⟩
    · by_cases hyaml : yamlExists store (slugify sub.title) = true
      · exact Or.inr ⟨_, handleSave_slugConflict hreq hslug hyaml⟩
      · rw [Bool.not_eq_true] at hyaml
        obtain ⟨i, hi, hpe⟩ :
            ∃ i, i < sub.photos.length ∧
              photoExists store (photoFilename (slugify sub.title) i) = true := by
          rcases h with h | h | h | h | h | h | h
          · exact absurd h ht
          · exact absurd h hm
          · exact absurd h hd
          · exact absurd h hs
          · exact absurd h hp
          · exact absurd h (by simp [hyaml])
          · exact h
        obtain ⟨j, hj⟩ := firstPhotoConflict_isSome hi hpe
        exact Or.inr ⟨_, handleSave_photoConflict hreq hslug hyaml hj⟩

/-- Closed witness for C1: on an empty store, a submission missing its
manufacturer is rejected without writing anything. -/
theorem handleSave_error_writes_nothing_witness :
    (∃ m, handleSave ⟨[], [], []⟩
        { title := "Space Marine", manufacturer := "", date := "2024-01-01",
          scale := "28mm", game := none, faction := none, order := none,
          photos := ["AAAA"] } = (.validationError m, ⟨[], [], []⟩)) ∨
    (∃ m, handleSave ⟨[], [], []⟩
        { title := "Space Marine", manufacturer := "", date := "2024-01-01",
          scale := "28mm", game := none, faction := none, order := none,
          photos := ["AAAA"] } = (.conflictError m, ⟨[], [], []⟩)) :=
  handleSave_error_writes_nothing _ _ (by simp)

/-- An empty filesystem, used as a concrete sample. -/
def sampleStore : Store := ⟨[], [], []⟩

/-- A well-formed submission with three photos, used as a concrete sample. -/
def sample3 : Submission :=
  { title := "Space Marine", manufacturer := "Games Workshop", date := "2024-01-01",
    scale := "28mm", game := none, faction := none, order := none,
    photos := ["A", "B", "C"] }

/-- C2: for a submission that passes field validation, slug derivation
and the record-collision check, the target image filenames are exactly
`slug.png` for position 0 and `slug-(i+1).png` for positions `i > 0`;
if any target exists the result is a ConflictError naming the first
such filename with the filesystem untouched (all targets are checked
before any write); and on success the photo files are appended in
submission order and the record references the targets in that same
order. -/
theorem handleSave_photo_targets (store : Store) (sub : Submission)
    (hreq : requiredMissing sub = false)
    (hslug : slugify sub.title ≠ "")
    (hyaml : yamlExists store (slugify sub.title) = false) :
    ((List.range sub.photos.length).map (photoFilename (slugify sub.title)) =
        (List.range sub.photos.length).map (fun i =>
          if i = 0 then slugify sub.title ++ ".png"
          else slugify sub.title ++ "-" ++ toString (i + 1) ++ ".png")) ∧
    (∀ i < sub.photos.length,
      photoExists store (photoFilename (slugify sub.title) i) = true →
      (∀ j < i, photoExists store (photoFilename (slugify sub.title) j) = false) →
      handleSave store sub =
        (.conflictError ("Photo file \"" ++ photoFilename (slugify sub.title) i ++
            "\" already exists"), store)) ∧
    ((∀ i < sub.photos.length,
        photoExists store (photoFilename (slugify sub.title) i) = false) →
      (handleSave store sub).2.photoFiles =
          store.photoFiles ++
            ((List.range sub.photos.length).map (photoFilename (slugify sub.title))).zip
              (sub.photos.map stripDataUri) ∧
      (handleSave store sub).2.miniFiles =
          store.miniFiles ++
            [(slugify sub.title ++ ".yaml",
              recordYaml sub ((List.range sub.photos.length).map
                (photoFilename (slugify sub.title))))]) := by
  refine ⟨rfl, ?_, ?_⟩
  · intro i hi hp hmin
    exact handleSave_photoConflict hreq hslug hyaml (firstPhotoConflict_first hi hp hmin)
  · intro hall
    rw [handleSave_success hreq hslug hyaml (firstPhotoConflict_eq_none_iff.2 hall)]
    exact ⟨rfl, rfl⟩

/-- Closed witness for C2: the three-photo sample on an empty store
succeeds, appending `space-marine.png`, `space-marine-2.png`,
`space-marine-3.png` in submission order and writing a record that
lists them in that order. -/
theorem handleSave_photo_targets_witness :
    (handleSave sampleStore sample3).2.photoFiles =
        sampleStore.photoFiles ++
          ((List.range sample3.photos.length).map (photoFilename (slugify sample3.title))).zip
            (sample3.photos.map stripDataUri) ∧
    (handleSave sampleStore sample3).2.miniFiles =
        sampleStore.miniFiles ++
          [(slugify sample3.title ++ ".yaml",
            recordYaml sample3 ((List.range sample3.photos.length).map
              (photoFilename (slugify sample3.title))))] :=
  (handleSave_photo_targets sampleStore sample3 (by decide) (by decide) (by decide)).2.2
    (by decide)

/-! ### Slug lemmas for whitespace-only titles -/

/-- The 25 characters matched by `\s`, as a list. -/
def jsSpaceChars : List Char :=
  [' ', '\t', '\n', '\r', Char.ofNat 0x0b, Char.ofNat 0x0c,
   Char.ofNat 0xa0, Char.ofNat 0x1680,
   Char.ofNat 0x2000, Char.ofNat 0x2001, Char.ofNat 0x2002, Char.ofNat 0x2003,
   Char.ofNat 0x2004, Char.ofNat 0x2005, Char.ofNat 0x2006, Char.ofNat 0x2007,
   Char.ofNat 0x2008, Char.ofNat 0x2009, Char.ofNat 0x200a,
   Char.ofNat 0x2028, Char.ofNat 0x2029, Char.ofNat 0x202f, Char.ofNat 0x205f,
   Char.ofNat 0x3000, Char.ofNat 0xfeff]

theorem isJsSpace_iff_mem {c : Char} : isJsSpace c = true ↔ c ∈ jsSpaceChars := by
  simp only [isJsSpace, jsSpaceChars, Bool.or_eq_true, decide_eq_true_eq,
    List.mem_cons, List.not_mem_nil, or_false, or_assoc]

theorem toLower_of_jsSpace {c : Char} (h : isJsSpace c = true) : Char.toLower c = c := by
  have hall : ∀ d ∈ jsSpaceChars, Char.toLower d = d := by decide
  exact hall c (isJsSpace_iff_mem.1 h)

theorem keepChar_of_jsSpace {c : Char} (h : isJsSpace c = true) : keepChar c = true := by
  simp [keepChar, h]

theorem collapseAux_true_of_all {p : Char → Bool} {l : List Char}
    (h : ∀ c ∈ l, p c = true) : collapseAux p true l = [] := by
  induction l with
  | nil => rfl
  | cons c rest ih =>
    have hc := h c (List.mem_cons_self c rest)
    simp [collapseAux, hc, ih fun d hd => h d (List.mem_cons_of_mem c hd)]

/-- A non-empty all-whitespace character list slugifies to the empty
list: the whitespace run collapses to a single hyphen, which the final
trim removes. -/
theorem slugifyL_of_all_space {l : List Char} (h : ∀ c ∈ l, isJsSpace c = true) :
    slugifyL l = [] := by
  have hmap : l.map Char.toLower = l :=
    (List.map_congr_left fun c hc => toLower_of_jsSpace (h c hc)).trans l.map_id
  have hfilter : l.filter keepChar = l :=
    List.filter_eq_self.2 fun c hc => keepChar_of_jsSpace (h c hc)
  rw [slugifyL, hmap, hfilter]
  cases l with
  | nil => rfl
  | cons c rest =>
    have hc := h c (List.mem_cons_self c rest)
    have hrest : collapseAux isJsSpace true rest = [] :=
      collapseAux_true_of_all fun d hd => h d (List.mem_cons_of_mem c hd)
    simp [collapseWs, collapseAux, hc, hrest, collapseHy, trimHy, dropLeadHy]

/-- C8: a submission whose title is non-empty but consists only of
whitespace passes the required-field validation (a whitespace-only
title is truthy) and fails at slug derivation instead, with the
empty-slug ValidationError and nothing written. -/
theorem handleSave_whitespace_title (store : Store) (sub : Submission)
    (ht : sub.title ≠ "") (hws : ∀ c ∈ sub.title.data, isJsSpace c = true)
    (hm : sub.manufacturer ≠ "") (hd : sub.date ≠ "") (hs : sub.scale ≠ "")
    (hp : sub.photos ≠ []) :
    handleSave store sub = (.validationError "Title produces an empty slug", store) := by
  have hreq : requiredMissing sub = false :=
    requiredMissing_false_iff.2 ⟨ht, hm, hd, hs, hp⟩
  have hslug : slugify sub.title = "" := by
    show String.mk (slugifyL sub.title.data) = ""
    rw [slugifyL_of_all_space hws]
  exact handleSave_emptySlug hreq hslug

/-- Closed witness for C8: a three-space title with the other required
fields present is rejected with the empty-slug error, not the
missing-fields error. -/
theorem handleSave_whitespace_title_witness :
    handleSave sampleStore
      { title := "   ", manufacturer := "Games Workshop", date := "2024-01-01",
        scale := "28mm", game := none, faction := none, order := none,
        photos := ["A"] } =
      (.validationError "Title produces an empty slug", sampleStore) :=
  handleSave_whitespace_title sampleStore _ (by decide) (by decide) (by decide)
    (by decide) (by decide) (by decide)

set_option maxRecDepth 8192 in
/-- C9: `order` is tested for truthiness, so the integer 0 behaves
exactly like an absent `order`: `handleSave` returns the very same
response and filesystem for `order = 0` and for no `order`; in
particular an otherwise-valid submission with `order = 0` succeeds and
its written record carries no `order:` line. -/
theorem handleSave_order_zero_omitted :
    (∀ (store : Store) (sub : Submission),
      handleSave store { sub with order := some 0 } =
        handleSave store { sub with order := none }) ∧
    (handleSave sampleStore { sample3 with order := some 0 }).1.isOk = true ∧
    (handleSave sampleStore { sample3 with order := some 0 }).2.miniFiles =
      [("space-marine.yaml",
        "title: \"Space Marine\"\nphotos:\n  - \"../../assets/photos/space-marine.png\"\n  - \"../../assets/photos/space-marine-2.png\"\n  - \"../../assets/photos/space-marine-3.png\"\nmanufacturer: \"Games Workshop\"\ndate: 2024-01-01\nscale: \"28mm\"\n")] :=
  ⟨fun _ _ => rfl, by decide, by decide⟩

/-- Inversion: a status-200 result can only come from the success
branch, pinning every guard and the returned components. -/
theorem handleSave_ok_inv {store : Store} {sub : Submission}
    {msg slug : String} {files warns : List String} {store' : Store}
    (h : handleSave store sub = (.ok msg slug files warns, store')) :
    requiredMissing sub = false ∧ slugify sub.title ≠ "" ∧
    yamlExists store (slugify sub.title) = false ∧
    firstPhotoConflict store (slugify sub.title) sub.photos.length = none ∧
    slug = slugify sub.title ∧ msg = savedMessage sub.title sub.photos.length ∧
    warns = saveWarnings store sub ∧
    store' = { store with
        photoFiles := store.photoFiles ++
          ((List.range sub.photos.length).map (photoFilename (slugify sub.title))).zip
            (sub.photos.map stripDataUri),
        miniFiles := store.miniFiles ++
          [(slugify sub.title ++ ".yaml",
            recordYaml sub ((List.range sub.photos.length).map
              (photoFilename (slugify sub.title))))] } := by
  by_cases hreq : requiredMissing sub = true
  · rw [handleSave_requiredMissing hreq] at h
    simp at h
  · rw [Bool.not_eq_true] at hreq
    by_cases hslug : slugify sub.title = ""
    · rw [handleSave_emptySlug hreq hslug] at h
      simp at h
    · by_cases hyaml : yamlExists store (slugify sub.title) = true
      · rw [handleSave_slugConflict hreq hslug hyaml] at h
        simp at h
      · rw [Bool.not_eq_true] at hyaml
        cases hph : firstPhotoConflict store (slugify sub.title) sub.photos.length with
        | some i =>
          rw [handleSave_photoConflict hreq hslug hyaml hph] at h
          simp at h
        | none =>
          rw [handleSave_success hreq hslug hyaml hph] at h
          simp only [Prod.mk.injEq, SaveResult.ok.injEq] at h
          obtain ⟨⟨hmsg, hslug', _, hwarn⟩, hstore⟩ := h
          exact ⟨hreq, hslug, hyaml, rfl, hslug'.symm, hmsg.symm, hwarn.symm, hstore.symm⟩

set_option maxRecDepth 8192 in
/-- C6: on success the warnings list is exactly one entry per missing
icon — manufacturer always checked, game and faction only when truthy,
each value normalised with the same `slugify` as titles and the
warning naming the expected relative icon path; and the logo directory
contents never influence the response status or the files written, so
a submission whose manufacturer lacks an icon still succeeds, with
exactly that one warning. -/
theorem handleSave_warnings (store : Store) (sub : Submission) :
    (∀ (msg slug : String) (files warns : List String) (store' : Store),
      handleSave store sub = (.ok msg slug files warns, store') →
      warns =
        (if logoExists store ("manufacturers/" ++ slugify sub.manufacturer ++ ".png")
         then [] else ["Missing logo: manufacturers/" ++ slugify sub.manufacturer ++ ".png"]) ++
        (match sub.game with
         | some g =>
           if truthyStr g then
             if logoExists store ("games/" ++ slugify g ++ ".png")
             then [] else ["Missing logo: games/" ++ slugify g ++ ".png"]
           else []
         | none => []) ++
        (match sub.faction with
         | some f =>
           if truthyStr f then
             if logoExists store ("factions/" ++ slugify f ++ ".png")
             then [] else ["Missing logo: factions/" ++ slugify f ++ ".png"]
           else []
         | none => [])) ∧
    (∀ L : List String,
      (handleSave { store with logoFiles := L } sub).1.isOk =
          (handleSave store sub).1.isOk ∧
      (handleSave { store with logoFiles := L } sub).2.miniFiles =
          (handleSave store sub).2.miniFiles ∧
      (handleSave { store with logoFiles := L } sub).2.photoFiles =
          (handleSave store sub).2.photoFiles) ∧
    ((handleSave sampleStore sample3).1.isOk = true ∧
      (handleSave sampleStore sample3).1.getWarnings =
        some ["Missing logo: manufacturers/games-workshop.png"]) := by
  refine ⟨?_, ?_, by decide, by decide⟩
  · intro msg slug files warns store' h
    obtain ⟨-, -, -, -, -, -, hwarn, -⟩ := handleSave_ok_inv h
    have flip : ∀ (b : Bool) (A : List String),
        (if b = false then A else []) = (if b = true then [] else A) := by
      intro b A
      cases b <;> simp
    rw [hwarn, saveWarnings]
    rcases sub.game with _ | g <;> rcases sub.faction with _ | f <;> simp [flip]
  · intro L
    by_cases hreq : requiredMissing sub = true
    · rw [handleSave_requiredMissing hreq, handleSave_requiredMissing hreq]
      exact ⟨rfl, rfl, rfl⟩
    · rw [Bool.not_eq_true] at hreq
      by_cases hslug : slugify sub.title = ""
      · rw [handleSave_emptySlug hreq hslug, handleSave_emptySlug hreq hslug]
        exact ⟨rfl, rfl, rfl⟩
      · by_cases hyaml : yamlExists store (slugify sub.title) = true
        · rw [handleSave_slugConflict hreq hslug hyaml,
            handleSave_slugConflict hreq hslug (show yamlExists
              { store with logoFiles := L } (slugify sub.title) = true from hyaml)]
          exact ⟨rfl, rfl, rfl⟩
        · rw [Bool.not_eq_true] at hyaml
          cases hph : firstPhotoConflict store (slugify sub.title) sub.photos.length with
          | some i =>
            rw [handleSave_photoConflict hreq hslug hyaml hph,
              handleSave_photoConflict hreq hslug
                (show yamlExists { store with logoFiles := L } (slugify sub.title) = false
                  from hyaml)
                (show firstPhotoConflict { store with logoFiles := L } (slugify sub.title)
                    sub.photos.length = some i from hph)]
            exact ⟨rfl, rfl, rfl⟩
          | none =>
            rw [handleSave_success hreq hslug hyaml hph,
              handleSave_success hreq hslug
                (show yamlExists { store with logoFiles := L } (slugify sub.title) = false
                  from hyaml)
                (show firstPhotoConflict { store with logoFiles := L } (slugify sub.title)
                    sub.photos.length = none from hph)]
            exact ⟨rfl, rfl, rfl⟩

/-- A minimal one-photo submission, used as a concrete sample. -/
def sample1 : Submission :=
  { title := "T", manufacturer := "M", date := "D", scale := "S", game := none,
    faction := none, order := none, photos := ["P"] }

set_option maxRecDepth 8192 in
/-- Closed witness for C6: the one-photo sample on an empty store,
whose manufacturer has no icon on disk, gets exactly the one expected
warning. -/
theorem handleSave_warnings_witness :
    ["Missing logo: manufacturers/m.png"] =
      (if logoExists sampleStore
          ("manufacturers/" ++ slugify sample1.manufacturer ++ ".png")
       then [] else
        ["Missing logo: manufacturers/" ++ slugify sample1.manufacturer ++ ".png"]) ++
      (match sample1.game with
       | some g =>
         if truthyStr g then
           if logoExists sampleStore ("games/" ++ slugify g ++ ".png")
           then [] else ["Missing logo: games/" ++ slugify g ++ ".png"]
         else []
       | none => []) ++
      (match sample1.faction with
       | some f =>
         if truthyStr f then
           if logoExists sampleStore ("factions/" ++ slugify f ++ ".png")
           then [] else ["Missing logo: factions/" ++ slugify f ++ ".png"]
         else []
       | none => []) :=
  (handleSave_warnings sampleStore sample1).1 "Saved \"T\" (1 photo)" "t"
    ["src/content/miniatures/t.yaml", "src/assets/photos/t.png"]
    ["Missing logo: manufacturers/m.png"]
    ⟨[("t.yaml",
       "title: \"T\"\nphotos:\n  - \"../../assets/photos/t.png\"\nmanufacturer: \"M\"\ndate: D\nscale: \"S\"\n")],
      [("t.png", "P")], []⟩
    (by decide)

/-- A line of the form `key: "v"` whose quoted value contains no
double quote — i.e. a single well-formed quoted string after the key. -/
def WellFormedQuotedLine (key line : String) : Prop :=
  ∃ v : String, v.data.contains '"' = false ∧ line = key ++ ": \"" ++ v ++ "\""

/-- A submission whose title contains a double quote, used as a
concrete sample. -/
def sampleQuote : Submission :=
  { title := "a\"b", manufacturer := "M", date := "D", scale := "S", game := none,
    faction := none, order := none, photos := ["P"] }

set_option maxRecDepth 8192 in
/-- C10: serialization embeds string field values verbatim between
double quotes with no escaping: on every successful save the written
record contains `title: "<title>"`, `manufacturer: "<manufacturer>"`
and `scale: "<scale>"` with the raw values spliced in; consequently a
line built from a value that itself contains a double quote is not a
single well-formed quoted string, as the concrete quote-bearing sample
shows. -/
theorem record_embeds_values_verbatim :
    (∀ (store : Store) (sub : Submission) (msg slug : String)
        (files warns : List String) (store' : Store),
      handleSave store sub = (.ok msg slug files warns, store') →
      ∃ content : String,
        store'.miniFiles = store.miniFiles ++ [(slug ++ ".yaml", content)] ∧
        (∃ r, content = "title: \"" ++ sub.title ++ "\"" ++ r) ∧
        (∃ p r, content = p ++ "manufacturer: \"" ++ sub.manufacturer ++ "\"" ++ r) ∧
        (∃ p r, content = p ++ "scale: \"" ++ sub.scale ++ "\"" ++ r)) ∧
    (∀ key v : String, v.data.contains '"' = true →
      ¬ WellFormedQuotedLine key (key ++ ": \"" ++ v ++ "\"")) ∧
    (handleSave sampleStore sampleQuote).2.miniFiles =
      [("ab.yaml",
        "title: \"a\"b\"\nphotos:\n  - \"../../assets/photos/ab.png\"\nmanufacturer: \"M\"\ndate: D\nscale: \"S\"\n")] := by
  refine ⟨?_, ?_, by decide⟩
  · intro store sub msg slug files warns store' h
    obtain ⟨-, -, -, -, hslug, -, -, hstore⟩ := handleSave_ok_inv h
    refine ⟨recordYaml sub ((List.range sub.photos.length).map
      (photoFilename (slugify sub.title))), ?_, ?_, ?_, ?_⟩
    · rw [hstore, hslug]
    · refine ⟨"\nphotos:\n" ++
        String.intercalate "\n" (((List.range sub.photos.length).map
          (photoFilename (slugify sub.title))).map photoBullet) ++
        "\nmanufacturer: \"" ++ sub.manufacturer ++ "\"\ndate: " ++ sub.date ++
        "\nscale: \"" ++ sub.scale ++ "\"" ++
        gamePart sub ++ factionPart sub ++ orderPart sub ++ "\n", ?_⟩
      rw [recordYaml]
      rw [show ("\"\nphotos:\n" : String) = "\"" ++ "\nphotos:\n" from rfl]
      simp only [String.append_assoc]
    · refine ⟨"title: \"" ++ sub.title ++ "\"\nphotos:\n" ++
        String.intercalate "\n" (((List.range sub.photos.length).map
          (photoFilename (slugify sub.title))).map photoBullet) ++ "\n",
        "\ndate: " ++ sub.date ++ "\nscale: \"" ++ sub.scale ++ "\"" ++
          gamePart sub ++ factionPart sub ++ orderPart sub ++ "\n",
        ?_⟩
      rw [recordYaml]
      rw [show ("\nmanufacturer: \"" : String) = "\n" ++ "manufacturer: \"" from rfl,
        show ("\"\ndate: " : String) = "\"" ++ "\ndate: " from rfl]
      simp only [String.append_assoc]
    · refine ⟨"title: \"" ++ sub.title ++ "\"\nphotos:\n" ++
        String.intercalate "\n" (((List.range sub.photos.length).map
          (photoFilename (slugify sub.title))).map photoBullet) ++
        "\nmanufacturer: \"" ++ sub.manufacturer ++ "\"\ndate: " ++ sub.date ++ "\n",
        gamePart sub ++ factionPart sub ++ orderPart sub ++ "\n", ?_⟩
      rw [recordYaml]
      rw [show ("\nscale: \"" : String) = "\n" ++ "scale: \"" from rfl]
      simp only [String.append_assoc]
  · rintro key v hv ⟨w, hw, heq⟩
    have hdata : (key ++ ": \"" ++ w ++ "\"").data = (key ++ ": \"" ++ v ++ "\"").data :=
      congrArg String.data heq.symm
    simp only [String.data_append, List.append_assoc] at hdata
    have h1 := List.append_cancel_left hdata
    have h2 := List.append_cancel_left h1
    have h3 := List.append_cancel_right h2
    rw [h3, hv] at hw
    exact Bool.noConfusion hw

/-- Closed witness for C10: the line `title: "a"b"` generated from the
quote-bearing title `a"b` is not a single well-formed quoted string. -/
theorem record_embeds_values_verbatim_witness :
    ¬ WellFormedQuotedLine "title" ("title" ++ ": \"" ++ "a\"b" ++ "\"") :=
  record_embeds_values_verbatim.2.1 "title" "a\"b" (by decide)

/-! ### The record serialization format (C4)

The spec describes the record as a sequence of LINES in a fixed field
order, absent optional fields omitted.  `recordLinesSpec` renders that
description; the bridge below proves the code's template-built text
equals those lines joined by newlines plus a trailing newline. -/

/-- The serialized record as a list of lines, following the spec's
field order: title, photos (an indented bulleted block of quoted
relative paths), manufacturer, date, scale, then game, faction, order
only when present (truthy); string fields double-quoted, date and
order unquoted literals. -/
def recordLinesSpec (sub : Submission) (targets : List String) : List String :=
  ["title: \"" ++ sub.title ++ "\"", "photos:"] ++
  targets.map photoBullet ++
  ["manufacturer: \"" ++ sub.manufacturer ++ "\"",
   "date: " ++ sub.date,
   "scale: \"" ++ sub.scale ++ "\""] ++
  (if truthyOptStr sub.game then ["game: \"" ++ sub.game.getD "" ++ "\""] else []) ++
  (if truthyOptStr sub.faction then ["faction: \"" ++ sub.faction.getD "" ++ "\""] else []) ++
  (if truthyOptInt sub.order then ["order: " ++ toString (sub.order.getD 0)] else [])

/-- Each line prefixed by a newline, concatenated. -/
def prepJoin (ls : List String) : String :=
  String.join (ls.map (fun l => "\n" ++ l))

theorem foldl_append_eq (l : List String) :
    ∀ y : String, l.foldl (fun r s => r ++ s) y = y ++ String.join l := by
  induction l with
  | nil => intro y; simp [String.join]
  | cons a l ih =>
    intro y
    show (a :: l).foldl (fun r s => r ++ s) y = y ++ String.join (a :: l)
    have h1 : (a :: l).foldl (fun r s => r ++ s) y = l.foldl (fun r s => r ++ s) (y ++ a) :=
      rfl
    have h2 : String.join (a :: l) = l.foldl (fun r s => r ++ s) ("" ++ a) := rfl
    rw [h1, ih, h2, ih, String.empty_append, String.append_assoc]

theorem string_join_cons (x : String) (l : List String) :
    String.join (x :: l) = x ++ String.join l := by
  have h : String.join (x :: l) = l.foldl (fun r s => r ++ s) ("" ++ x) := rfl
  rw [h, foldl_append_eq, String.empty_append]

theorem prepJoin_nil : prepJoin [] = "" := rfl

theorem prepJoin_cons (x : String) (l : List String) :
    prepJoin (x :: l) = "\n" ++ x ++ prepJoin l := by
  rw [prepJoin, List.map_cons, string_join_cons, String.append_assoc]
  rfl

theorem prepJoin_append (l₁ l₂ : List String) :
    prepJoin (l₁ ++ l₂) = prepJoin l₁ ++ prepJoin l₂ := by
  induction l₁ with
  | nil => rw [prepJoin_nil, List.nil_append, String.empty_append]
  | cons a l ih =>
    rw [List.cons_append, prepJoin_cons, prepJoin_cons, ih]
    simp only [String.append_assoc]

theorem intercalate_cons (x : String) (xs : List String) :
    String.intercalate "\n" (x :: xs) = x ++ prepJoin xs := by
  have go_eq : ∀ (l : List String) (a : String),
      String.intercalate.go a "\n" l = a ++ prepJoin l := by
    intro l
    induction l with
    | nil => intro a; rw [prepJoin_nil, String.append_empty]; rfl
    | cons b r ih =>
      intro a
      have h1 : String.intercalate.go a "\n" (b :: r) =
          String.intercalate.go (a ++ "\n" ++ b) "\n" r := rfl
      rw [h1, ih, prepJoin_cons]
      simp only [String.append_assoc]
  exact go_eq xs x

theorem gamePart_eq (sub : Submission) :
    gamePart sub =
      prepJoin (if truthyOptStr sub.game
        then ["game: \"" ++ sub.game.getD "" ++ "\""] else []) := by
  rcases hg : sub.game with _ | g
  · simp [gamePart, hg, truthyOptStr, prepJoin_nil]
  · rcases ht : truthyStr g
    · simp [gamePart, hg, ht, truthyOptStr, prepJoin_nil]
    · simp only [gamePart, hg, ht, truthyOptStr, if_true, Option.getD_some,
        prepJoin_cons, prepJoin_nil, String.append_empty]
      rw [show ("\ngame: \"" : String) = "\n" ++ "game: \"" from rfl]
      simp only [String.append_assoc]

theorem factionPart_eq (sub : Submission) :
    factionPart sub =
      prepJoin (if truthyOptStr sub.faction
        then ["faction: \"" ++ sub.faction.getD "" ++ "\""] else []) := by
  rcases hf : sub.faction with _ | f
  · simp [factionPart, hf, truthyOptStr, prepJoin_nil]
  · rcases ht : truthyStr f
    · simp [factionPart, hf, ht, truthyOptStr, prepJoin_nil]
    · simp only [factionPart, hf, ht, truthyOptStr, if_true, Option.getD_some,
        prepJoin_cons, prepJoin_nil, String.append_empty]
      rw [show ("\nfaction: \"" : String) = "\n" ++ "faction: \"" from rfl]
      simp only [String.append_assoc]

theorem orderPart_eq (sub : Submission) :
    orderPart sub =
      prepJoin (if truthyOptInt sub.order
        then ["order: " ++ toString (sub.order.getD 0)] else []) := by
  rcases ho : sub.order with _ | n
  · simp [orderPart, ho, truthyOptInt, prepJoin_nil]
  · by_cases hn : n = 0
    · simp [orderPart, ho, hn, truthyOptInt, prepJoin_nil]
    · have hb : (n == 0) = false := beq_eq_false_iff_ne.2 hn
      simp only [orderPart, ho, hn, hb, truthyOptInt, if_true, Option.getD_some,
        prepJoin_cons, prepJoin_nil, String.append_empty, ne_eq,
        not_false_eq_true, Bool.not_eq_true', if_false]
      rw [show ("\norder: " : String) = "\n" ++ "order: " from rfl]
      simp only [String.append_assoc]

/-- The bridge: for a non-empty photo block, the code's template text
equals the spec's lines joined by newlines, closed by a newline. -/
theorem recordYaml_eq_spec (sub : Submission) (targets : List String)
    (h : targets ≠ []) :
    recordYaml sub targets =
      String.intercalate "\n" (recordLinesSpec sub targets) ++ "\n" := by
  obtain ⟨b, bs, rfl⟩ := List.exists_cons_of_ne_nil h
  rw [recordYaml, recordLinesSpec]
  rw [gamePart_eq sub, factionPart_eq sub, orderPart_eq sub]
  simp only [List.map_cons, List.cons_append, List.nil_append, intercalate_cons,
    prepJoin_cons, prepJoin_append, prepJoin_nil, String.empty_append,
    String.append_empty]
  rw [show ("\"\nphotos:\n" : String) = "\"" ++ "\n" ++ "photos:" ++ "\n" from rfl,
    show ("\nmanufacturer: \"" : String) = "\n" ++ "manufacturer: \"" from rfl,
    show ("\"\ndate: " : String) = "\"" ++ "\ndate: " from rfl,
    show ("\ndate: " : String) = "\n" ++ "date: " from rfl,
    show ("\nscale: \"" : String) = "\n" ++ "scale: \"" from rfl]
  simp only [String.append_assoc]

set_option maxRecDepth 8192 in
/-- C4: every successful save writes a record whose serialized form is
exactly the fixed-order line sequence of `recordLinesSpec`: title,
photos block, manufacturer, date, scale, then game, faction, order
only when present, absent optional fields omitted entirely; string
fields double-quoted, date and order unquoted, photos an indented
bulleted block of quoted relative paths. -/
theorem record_serialization_fixed_order (store : Store) (sub : Submission)
    (msg slug : String) (files warns : List String) (store' : Store)
    (h : handleSave store sub = (.ok msg slug files warns, store')) :
    store'.miniFiles = store.miniFiles ++
      [(slug ++ ".yaml",
        String.intercalate "\n"
          (recordLinesSpec sub
            ((List.range sub.photos.length).map (photoFilename slug))) ++ "\n")] := by
  obtain ⟨hreq, -, -, -, hslug, -, -, hstore⟩ := handleSave_ok_inv h
  obtain ⟨-, -, -, -, hp⟩ := requiredMissing_false_iff.1 hreq
  have hne : (List.range sub.photos.length).map (photoFilename (slugify sub.title)) ≠ [] := by
    simp [List.range_eq_nil, List.length_eq_zero, hp]
  rw [hstore, hslug, recordYaml_eq_spec sub _ hne]

/-- Closed witness for C4: the serialized record of the one-photo
sample is its spec line rendering. -/
theorem record_serialization_fixed_order_witness :
    (handleSave sampleStore sample1).2.miniFiles = sampleStore.miniFiles ++
      [("t" ++ ".yaml",
        String.intercalate "\n"
          (recordLinesSpec sample1
            ((List.range sample1.photos.length).map (photoFilename "t"))) ++ "\n")] :=
  record_serialization_fixed_order sampleStore sample1
    "Saved \"T\" (1 photo)" "t"
    ["src/content/miniatures/t.yaml", "src/assets/photos/t.png"]
    ["Missing logo: manufacturers/m.png"]
    ⟨[("t.yaml",
       "title: \"T\"\nphotos:\n  - \"../../assets/photos/t.png\"\nmanufacturer: \"M\"\ndate: D\nscale: \"S\"\n")],
      [("t.png", "P")], []⟩
    (by decide)

/-! ### The metadata scanner (C5) -/

/-- The value the line pattern extracts for a given key, if any. -/
def lineValue (key : String) (line : String) : Option String :=
  match matchKV line with
  | some kv => if kv.1 = key then some kv.2 else none
  | none => none

/-- One step of set accumulation for one key. -/
def accField (key : String) (s : List String) (line : String) : List String :=
  match lineValue key line with
  | some v => addVal s v
  | none => s

theorem processLine_manufacturers (acc : SetsAcc) (line : String) :
    (processLine acc line).manufacturers = accField "manufacturer" acc.manufacturers line := by
  rw [processLine, accField, lineValue]
  cases matchKV line with
  | none => rfl
  | some kv =>
    obtain ⟨k, v⟩ := kv
    by_cases h1 : k = "manufacturer"
    · simp [h1, addVal]
    · by_cases h2 : k = "game"
      · simp [h1, h2]
      · by_cases h3 : k = "faction"
        · simp [h1, h2, h3]
        · by_cases h4 : k = "scale" <;> simp [h1, h2, h3, h4]

theorem processLine_games (acc : SetsAcc) (line : String) :
    (processLine acc line).games = accField "game" acc.games line := by
  rw [processLine, accField, lineValue]
  cases matchKV line with
  | none => rfl
  | some kv =>
    obtain ⟨k, v⟩ := kv
    by_cases h1 : k = "manufacturer"
    · simp [h1]
    · by_cases h2 : k = "game"
      · simp [h1, h2, addVal]
      · by_cases h3 : k = "faction"
        · simp [h1, h2, h3]
        · by_cases h4 : k = "scale" <;> simp [h1, h2, h3, h4]

theorem processLine_factions (acc : SetsAcc) (line : String) :
    (processLine acc line).factions = accField "faction" acc.factions line := by
  rw [processLine, accField, lineValue]
  cases matchKV line with
  | none => rfl
  | some kv =>
    obtain ⟨k, v⟩ := kv
    by_cases h1 : k = "manufacturer"
    · simp [h1]
    · by_cases h2 : k = "game"
      · simp [h1, h2]
      · by_cases h3 : k = "faction"
        · simp [h1, h2, h3, addVal]
        · by_cases h4 : k = "scale" <;> simp [h1, h2, h3, h4]

theorem processLine_scales (acc : SetsAcc) (line : String) :
    (processLine acc line).scales = accField "scale" acc.scales line := by
  rw [processLine, accField, lineValue]
  cases matchKV line with
  | none => rfl
  | some kv =>
    obtain ⟨k, v⟩ := kv
    by_cases h1 : k = "manufacturer"
    · simp [h1]
    · by_cases h2 : k = "game"
      · simp [h1, h2]
      · by_cases h3 : k = "faction"
        · simp [h1, h2, h3]
        · by_cases h4 : k = "scale" <;> simp [h1, h2, h3, h4, addVal]

theorem foldl_processLine_proj {sel : SetsAcc → List String} {key : String}
    (hproj : ∀ acc line, sel (processLine acc line) = accField key (sel acc) line)
    (lines : List String) :
    ∀ acc : SetsAcc,
      sel (lines.foldl processLine acc) = lines.foldl (accField key) (sel acc) := by
  induction lines with
  | nil => intro acc; rfl
  | cons l ls ih =>
    intro acc
    rw [List.foldl_cons, List.foldl_cons, ih, hproj]

theorem foldl_processFile_proj {sel : SetsAcc → List String} {key : String}
    (hproj : ∀ acc line, sel (processLine acc line) = accField key (sel acc) line)
    (files : List (String × String)) :
    ∀ acc : SetsAcc,
      sel (files.foldl (fun a f => processFile a f.2) acc) =
        files.foldl (fun s f => (splitNl f.2).foldl (accField key) s) (sel acc) := by
  induction files with
  | nil => intro acc; rfl
  | cons f fs ih =>
    intro acc
    rw [List.foldl_cons, List.foldl_cons, ih, processFile,
      foldl_processLine_proj hproj]

theorem mem_addVal {s : List String} {w v : String} :
    v ∈ addVal s w ↔ v ∈ s ∨ v = w := by
  rw [addVal]
  by_cases h : w ∈ s
  · simp only [if_pos h]
    constructor
    · exact Or.inl
    · rintro (hv | rfl)
      · exact hv
      · exact h
  · simp [if_neg h]

theorem nodup_addVal {s : List String} {w : String} (h : s.Nodup) :
    (addVal s w).Nodup := by
  rw [addVal]
  by_cases hw : w ∈ s
  · simpa [if_pos hw]
  · simp only [if_neg hw, List.nodup_append]
    exact ⟨h, List.nodup_singleton _, by simpa [List.disjoint_singleton] using hw⟩

theorem mem_foldl_accField {key : String} (lines : List String) :
    ∀ (s : List String) (v : String),
      v ∈ lines.foldl (accField key) s ↔
        v ∈ s ∨ ∃ line ∈ lines, lineValue key line = some v := by
  induction lines with
  | nil => intro s v; simp
  | cons l ls ih =>
    intro s v
    rw [List.foldl_cons, ih]
    have hstep : v ∈ accField key s l ↔ v ∈ s ∨ lineValue key l = some v := by
      rw [accField]
      cases hl : lineValue key l with
      | none => simp
      | some w =>
        rw [mem_addVal]
        constructor
        · rintro (hv | rfl)
          · exact Or.inl hv
          · exact Or.inr rfl
        · rintro (hv | hv)
          · exact Or.inl hv
          · exact Or.inr (Option.some.injEq .. ▸ hv.symm ▸ rfl)
    rw [hstep]
    simp only [List.mem_cons]
    constructor
    · rintro ((hv | hl) | ⟨line, hline, hv⟩)
      · exact Or.inl hv
      · exact Or.inr ⟨l, Or.inl rfl, hl⟩
      · exact Or.inr ⟨line, Or.inr hline, hv⟩
    · rintro (hv | ⟨line, (rfl | hline), hv⟩)
      · exact Or.inl (Or.inl hv)
      · exact Or.inl (Or.inr hv)
      · exact Or.inr ⟨line, hline, hv⟩

theorem nodup_foldl_accField {key : String} (lines : List String) :
    ∀ s : List String, s.Nodup → (lines.foldl (accField key) s).Nodup := by
  induction lines with
  | nil => intro s h; exact h
  | cons l ls ih =>
    intro s h
    rw [List.foldl_cons]
    refine ih _ ?_
    rw [accField]
    cases lineValue key l with
    | none => exact h
    | some w => exact nodup_addVal h

theorem mem_foldl_files_accField {key : String} (files : List (String × String)) :
    ∀ (s : List String) (v : String),
      v ∈ files.foldl (fun s f => (splitNl f.2).foldl (accField key) s) s ↔
        v ∈ s ∨ ∃ f ∈ files, ∃ line ∈ splitNl f.2, lineValue key line = some v := by
  induction files with
  | nil => intro s v; simp
  | cons f fs ih =>
    intro s v
    rw [List.foldl_cons, ih, mem_foldl_accField]
    simp only [List.mem_cons]
    constructor
    · rintro ((hv | ⟨line, hline, hv⟩) | ⟨g, hg, line, hline, hv⟩)
      · exact Or.inl hv
      · exact Or.inr ⟨f, Or.inl rfl, line, hline, hv⟩
      · exact Or.inr ⟨g, Or.inr hg, line, hline, hv⟩
    · rintro (hv | ⟨g, (rfl | hg), line, hline, hv⟩)
      · exact Or.inl (Or.inl hv)
      · exact Or.inl (Or.inr ⟨line, hline, hv⟩)
      · exact Or.inr ⟨g, hg, line, hline, hv⟩

theorem nodup_foldl_files_accField {key : String} (files : List (String × String)) :
    ∀ s : List String, s.Nodup →
      (files.foldl (fun s f => (splitNl f.2).foldl (accField key) s) s).Nodup := by
  induction files with
  | nil => intro s h; exact h
  | cons f fs ih =>
    intro s h
    rw [List.foldl_cons]
    exact ih _ (nodup_foldl_accField _ _ h)

theorem sortStr_mem {l : List String} {v : String} : v ∈ sortStr l ↔ v ∈ l :=
  (List.perm_insertionSort (· ≤ ·) l).mem_iff

theorem sortStr_sorted (l : List String) : List.Sorted (· ≤ ·) (sortStr l) :=
  List.sorted_insertionSort (· ≤ ·) l

theorem sortStr_nodup {l : List String} (h : l.Nodup) : (sortStr l).Nodup :=
  ((List.perm_insertionSort (· ≤ ·) l).nodup_iff).2 h

set_option maxRecDepth 8192 in
/-- C5: `getMetadata` (i) collects exactly the values matched by the
line pattern under each of the four keys, set-style (membership is
existence of a matching line in some `.yaml` record, duplicates
collapse: each list is duplicate-free), (ii) returns each of the four
lists sorted lexicographically ascending, (iii) returns the
identifier list as the record file base names with the `.yaml`
extension stripped, in directory order, neither sorted nor
deduplicated; on an empty store everything is empty, and a single
record with manufacturer `"Foo"` yields exactly `["Foo"]`. -/
theorem getMetadata_spec :
    (∀ (store : Store) (v : String),
      (v ∈ (getMetadata store).manufacturers ↔
        ∃ f ∈ store.miniFiles.filter (fun f => strEndsWith f.1 ".yaml"),
          ∃ line ∈ splitNl f.2, lineValue "manufacturer" line = some v) ∧
      (v ∈ (getMetadata store).games ↔
        ∃ f ∈ store.miniFiles.filter (fun f => strEndsWith f.1 ".yaml"),
          ∃ line ∈ splitNl f.2, lineValue "game" line = some v) ∧
      (v ∈ (getMetadata store).factions ↔
        ∃ f ∈ store.miniFiles.filter (fun f => strEndsWith f.1 ".yaml"),
          ∃ line ∈ splitNl f.2, lineValue "faction" line = some v) ∧
      (v ∈ (getMetadata store).scales ↔
        ∃ f ∈ store.miniFiles.filter (fun f => strEndsWith f.1 ".yaml"),
          ∃ line ∈ splitNl f.2, lineValue "scale" line = some v)) ∧
    (∀ store : Store,
      (List.Sorted (· ≤ ·) (getMetadata store).manufacturers ∧
        (getMetadata store).manufacturers.Nodup) ∧
      (List.Sorted (· ≤ ·) (getMetadata store).games ∧
        (getMetadata store).games.Nodup) ∧
      (List.Sorted (· ≤ ·) (getMetadata store).factions ∧
        (getMetadata store).factions.Nodup) ∧
      (List.Sorted (· ≤ ·) (getMetadata store).scales ∧
        (getMetadata store).scales.Nodup)) ∧
    (∀ store : Store,
      (getMetadata store).slugs =
        (store.miniFiles.filter (fun f => strEndsWith f.1 ".yaml")).map
          (fun f => String.mk (f.1.data.take (f.1.data.length - 5)))) ∧
    (getMetadata sampleStore = ⟨[], [], [], [], []⟩) ∧
    ((getMetadata ⟨[("foo.yaml", "manufacturer: \"Foo\"\n")], [], []⟩).manufacturers =
      ["Foo"]) := by
  have hman := foldl_processFile_proj processLine_manufacturers
  have hgam := foldl_processFile_proj processLine_games
  have hfac := foldl_processFile_proj processLine_factions
  have hsca := foldl_processFile_proj processLine_scales
  refine ⟨?_, ?_, ?_, by decide, by decide⟩
  · intro store v
    refine ⟨?_, ?_, ?_, ?_⟩ <;>
      simp only [getMetadata, sortStr_mem, hman, hgam, hfac, hsca,
        mem_foldl_files_accField, List.not_mem_nil, false_or]
  · intro store
    refine ⟨⟨?_, ?_⟩, ⟨?_, ?_⟩, ⟨?_, ?_⟩, ⟨?_, ?_⟩⟩
    · exact sortStr_sorted _
    · exact sortStr_nodup ((hman _ _) ▸ nodup_foldl_files_accField _ _ List.nodup_nil)
    · exact sortStr_sorted _
    · exact sortStr_nodup ((hgam _ _) ▸ nodup_foldl_files_accField _ _ List.nodup_nil)
    · exact sortStr_sorted _
    · exact sortStr_nodup ((hfac _ _) ▸ nodup_foldl_files_accField _ _ List.nodup_nil)
    · exact sortStr_sorted _
    · exact sortStr_nodup ((hsca _ _) ▸ nodup_foldl_files_accField _ _ List.nodup_nil)
  · intro store
    rw [getMetadata]
    refine List.map_congr_left ?_
    intro f hf
    rw [dropYamlExt, if_pos (List.mem_filter.1 hf).2]

/-! ### Idempotence of slugify (C7)

A slug output consists of lowercase letters, digits and single
hyphens, with no hyphen at either end; every stage of the pipeline is
the identity on such strings. -/

/-- Characters a slug can contain. -/
def isSlugChar (c : Char) : Bool := isLowerAZ c || isDigit09 c || c == '-'

/-- No two adjacent hyphens. -/
def NoHH (a b : Char) : Prop := ¬(a = '-' ∧ b = '-')

theorem mem_collapseAux {p : Char → Bool} {l : List Char} :
    ∀ {b c}, c ∈ collapseAux p b l → c = '-' ∨ (c ∈ l ∧ p c = false) := by
  induction l with
  | nil => intro b c h; cases h
  | cons a rest ih =>
    intro b c h
    rw [collapseAux] at h
    by_cases ha : p a = true
    · rcases b with _ | _
      · rw [if_pos ha, if_neg Bool.false_ne_true] at h
        rcases List.mem_cons.1 h with h | h
        · exact Or.inl h
        · rcases ih h with h' | ⟨hm, hp⟩
          · exact Or.inl h'
          · exact Or.inr ⟨List.mem_cons_of_mem a hm, hp⟩
      · rw [if_pos ha, if_pos rfl] at h
        rcases ih h with h' | ⟨hm, hp⟩
        · exact Or.inl h'
        · exact Or.inr ⟨List.mem_cons_of_mem a hm, hp⟩
    · rw [Bool.not_eq_true] at ha
      rw [if_neg (by simp [ha])] at h
      rcases List.mem_cons.1 h with rfl | h
      · exact Or.inr ⟨List.mem_cons_self _ _, ha⟩
      · rcases ih h with h' | ⟨hm, hp⟩
        · exact Or.inl h'
        · exact Or.inr ⟨List.mem_cons_of_mem a hm, hp⟩

theorem collapseHy_chain (l : List Char) :
    (∀ b, List.Chain' NoHH (collapseAux (· == '-') b l)) ∧
      (collapseAux (· == '-') true l).head? ≠ some '-' := by
  induction l with
  | nil => exact ⟨fun b => List.chain'_nil, by simp [collapseAux]⟩
  | cons c rest ih =>
    by_cases hc : c = '-'
    · subst hc
      have e1 : collapseAux (· == '-') true ('-' :: rest) =
          collapseAux (· == '-') true rest := by
        rw [collapseAux, if_pos (by simp), if_pos rfl]
      have e2 : collapseAux (· == '-') false ('-' :: rest) =
          '-' :: collapseAux (· == '-') true rest := by
        rw [collapseAux, if_pos (by simp), if_neg Bool.false_ne_true]
      refine ⟨?_, ?_⟩
      · intro b
        rcases b with _ | _
        · rw [e2, List.chain'_cons']
          refine ⟨?_, ih.1 true⟩
          intro y hy
          rintro ⟨-, hy'⟩
          rw [Option.mem_def] at hy
          subst hy'
          exact ih.2 hy
        · rw [e1]; exact ih.1 true
      · rw [e1]; exact ih.2
    · have e : ∀ b, collapseAux (· == '-') b (c :: rest) =
          c :: collapseAux (· == '-') false rest := by
        intro b
        rw [collapseAux, if_neg (by simp [hc])]
      refine ⟨?_, ?_⟩
      · intro b
        rw [e b, List.chain'_cons']
        exact ⟨fun y _ ⟨hc', _⟩ => hc hc', ih.1 false⟩
      · rw [e true]
        simp [hc]

theorem collapseAux_id_of_not {p : Char → Bool} {l : List Char}
    (h : ∀ c ∈ l, p c = false) : ∀ b, collapseAux p b l = l := by
  induction l with
  | nil => intro b; rfl
  | cons c rest ih =>
    intro b
    rw [collapseAux, if_neg (by simp [h c (List.mem_cons_self c rest)])]
    rw [ih fun d hd => h d (List.mem_cons_of_mem c hd)]

theorem collapseHy_id_of_chain {l : List Char} (h : List.Chain' NoHH l) :
    ∀ b, (b = true → l.head? ≠ some '-') → collapseAux (· == '-') b l = l := by
  induction l with
  | nil => intro b _; rfl
  | cons c rest ih =>
    intro b hb
    by_cases hc : c = '-'
    · subst hc
      cases b with
      | true =>
        exact absurd (show ('-' :: rest).head? = some '-' from rfl) (hb rfl)
      | false =>
        rw [collapseAux, if_pos (by simp), if_neg Bool.false_ne_true]
        congr 1
        refine ih (List.Chain'.tail h) true fun _ => ?_
        rcases rest with _ | ⟨d, rest'⟩
        · simp
        · have hnd := (List.chain'_cons'.1 h).1 d (by simp)
          simp only [List.head?_cons, ne_eq, Option.some.injEq]
          intro hd
          exact hnd ⟨rfl, hd⟩
    · rw [collapseAux, if_neg (by simp [hc])]
      congr 1
      exact ih (List.Chain'.tail h) false (by simp)

theorem dropLeadHy_of_head {l : List Char} (h : l.head? ≠ some '-') :
    dropLeadHy l = l := by
  rcases l with _ | ⟨c, rest⟩
  · rfl
  · by_cases hc : c = '-'
    · subst hc
      exact absurd (show ('-' :: rest).head? = some '-' from rfl) h
    · rw [dropLeadHy.eq_def]
      split
      · rename_i heq
        injection heq with h1 _
        exact absurd h1 hc
      · rfl

theorem trimHy_id {l : List Char} (h1 : l.head? ≠ some '-')
    (h2 : l.getLast? ≠ some '-') : trimHy l = l := by
  rw [trimHy]
  show ((dropLeadHy (dropLeadHy l).reverse)).reverse = l
  rw [dropLeadHy_of_head h1, dropLeadHy_of_head (by rw [List.head?_reverse]; exact h2),
    List.reverse_reverse]

theorem mem_dropLeadHy {l : List Char} {c : Char} (h : c ∈ dropLeadHy l) : c ∈ l := by
  rcases l with _ | ⟨a, rest⟩
  · exact h
  · by_cases ha : a = '-'
    · subst ha
      exact List.mem_cons_of_mem _ h
    · rwa [dropLeadHy_of_head (by simp [ha])] at h

theorem mem_trimHy {l : List Char} {c : Char} (h : c ∈ trimHy l) : c ∈ l := by
  rw [trimHy] at h
  rw [List.mem_reverse] at h
  have h' := mem_dropLeadHy h
  rw [List.mem_reverse] at h'
  exact mem_dropLeadHy h'

theorem chain_dropLeadHy {l : List Char} (h : List.Chain' NoHH l) :
    List.Chain' NoHH (dropLeadHy l) := by
  rcases l with _ | ⟨a, rest⟩
  · exact h
  · by_cases ha : a = '-'
    · subst ha
      exact h.tail
    · rwa [dropLeadHy_of_head (by simp [ha])]

theorem chain_reverse_NoHH {l : List Char} (h : List.Chain' NoHH l) :
    List.Chain' NoHH l.reverse := by
  rw [List.chain'_reverse]
  exact h.imp fun a b hab ⟨h1, h2⟩ => hab ⟨h2, h1⟩

theorem chain_trimHy {l : List Char} (h : List.Chain' NoHH l) :
    List.Chain' NoHH (trimHy l) := by
  rw [trimHy]
  exact chain_reverse_NoHH (chain_dropLeadHy (chain_reverse_NoHH (chain_dropLeadHy h)))

theorem dropLeadHy_head_ne {l : List Char} (h : List.Chain' NoHH l) :
    (dropLeadHy l).head? ≠ some '-' := by
  rcases l with _ | ⟨a, rest⟩
  · simp [dropLeadHy]
  · by_cases ha : a = '-'
    · subst ha
      show rest.head? ≠ some '-'
      rcases rest with _ | ⟨d, rest'⟩
      · simp
      · have := (List.chain'_cons'.1 h).1 d (by simp)
        simp only [List.head?_cons, ne_eq, Option.some.injEq]
        intro hd
        exact this ⟨rfl, hd⟩
    · rw [dropLeadHy_of_head (by simp [ha])]
      simpa using ha

theorem dropLeadHy_getLast_ne {l : List Char} (h : l.getLast? ≠ some '-') :
    (dropLeadHy l).getLast? ≠ some '-' := by
  rcases l with _ | ⟨a, rest⟩
  · simp [dropLeadHy]
  · by_cases ha : a = '-'
    · subst ha
      show rest.getLast? ≠ some '-'
      rcases rest with _ | ⟨d, rest'⟩
      · simp
      · rwa [List.getLast?_cons_cons] at h
    · rwa [dropLeadHy_of_head (by simp [ha])]

theorem trimHy_head_ne {l : List Char} (h : List.Chain' NoHH l) :
    (trimHy l).head? ≠ some '-' ∧ (trimHy l).getLast? ≠ some '-' := by
  rw [trimHy]
  constructor
  · rw [List.head?_reverse]
    refine dropLeadHy_getLast_ne ?_
    rw [List.getLast?_reverse]
    exact dropLeadHy_head_ne h
  · rw [List.getLast?_reverse]
    exact dropLeadHy_head_ne (chain_reverse_NoHH (chain_dropLeadHy h))

theorem keepChar_of_slugChar {c : Char} (h : isSlugChar c = true) : keepChar c = true := by
  rcases Bool.or_eq_true_iff.1 h with h' | h'
  · rcases Bool.or_eq_true_iff.1 h' with h'' | h''
    · simp [keepChar, h'']
    · simp [keepChar, h'']
  · rw [beq_iff_eq] at h'
    simp [keepChar, h']

theorem not_space_of_slugChar {c : Char} (h : isSlugChar c = true) :
    isJsSpace c = false := by
  by_contra hc
  rw [Bool.not_eq_false] at hc
  have hall : ∀ d ∈ jsSpaceChars, isSlugChar d = false := by decide
  rw [hall c (isJsSpace_iff_mem.1 hc)] at h
  exact Bool.noConfusion h

theorem toLower_of_slugChar {c : Char} (h : isSlugChar c = true) :
    Char.toLower c = c := by
  rcases Bool.or_eq_true_iff.1 h with h' | h'
  · rcases Bool.or_eq_true_iff.1 h' with h'' | h''
    · simp only [isLowerAZ, Bool.and_eq_true, decide_eq_true_eq] at h''
      have h1 : 97 ≤ c.toNat := h''.1
      have h2 : c.toNat ≤ 122 := h''.2
      simp only [Char.toLower]
      rw [if_neg (by omega)]
    · simp only [isDigit09, Bool.and_eq_true, decide_eq_true_eq] at h''
      have h1 : 48 ≤ c.toNat := h''.1
      have h2 : c.toNat ≤ 57 := h''.2
      simp only [Char.toLower]
      rw [if_neg (by omega)]
  · rw [beq_iff_eq] at h'
    subst h'
    decide

/-- The pipeline is the identity on clean slug strings. -/
theorem slugifyL_id {l : List Char} (hmem : ∀ c ∈ l, isSlugChar c = true)
    (hchain : List.Chain' NoHH l) (hhead : l.head? ≠ some '-')
    (hlast : l.getLast? ≠ some '-') : slugifyL l = l := by
  rw [slugifyL]
  have e1 : l.map Char.toLower = l :=
    (List.map_congr_left fun c hc => toLower_of_slugChar (hmem c hc)).trans l.map_id
  have e2 : l.filter keepChar = l :=
    List.filter_eq_self.2 fun c hc => keepChar_of_slugChar (hmem c hc)
  rw [e1, e2, collapseWs,
    collapseAux_id_of_not (fun c hc => not_space_of_slugChar (hmem c hc)) false,
    collapseHy, collapseHy_id_of_chain hchain false (by simp),
    trimHy_id hhead hlast]

/-- The output of `slugifyL` is clean. -/
theorem slugifyL_clean (s : List Char) :
    (∀ c ∈ slugifyL s, isSlugChar c = true) ∧
      List.Chain' NoHH (slugifyL s) ∧
      (slugifyL s).head? ≠ some '-' ∧ (slugifyL s).getLast? ≠ some '-' := by
  rw [slugifyL]
  set Z := (s.map Char.toLower).filter keepChar with hZ
  refine ⟨?_, ?_, ?_, ?_⟩
  · intro c hc
    have h1 := mem_trimHy hc
    rcases mem_collapseAux h1 with h2 | ⟨h2, hp2⟩
    · simp [isSlugChar, h2]
    · rcases mem_collapseAux h2 with h3 | ⟨h3, hp3⟩
      · simp [isSlugChar, h3]
      · have hk : keepChar c = true := (List.mem_filter.1 h3).2
        simp only [keepChar, Bool.or_eq_true_iff] at hk
        rcases hk with ((hk | hk) | hk) | hk
        · simp [isSlugChar, hk]
        · simp [isSlugChar, hk]
        · rw [hk] at hp3
          exact Bool.noConfusion hp3
        · simp [isSlugChar, of_decide_eq_true hk]
  · exact chain_trimHy ((collapseHy_chain (collapseWs Z)).1 false)
  · exact (trimHy_head_ne ((collapseHy_chain (collapseWs Z)).1 false)).1
  · exact (trimHy_head_ne ((collapseHy_chain (collapseWs Z)).1 false)).2

/-- C7: slug derivation is idempotent: re-slugifying a derived slug
returns it unchanged (stated, as in the spec, for titles whose derived
slug is non-empty, though the proof needs no such restriction). -/
theorem slugify_idempotent (s : String) (_h : slugify s ≠ "") :
    slugify (slugify s) = slugify s := by
  show String.mk (slugifyL (slugifyL s.data)) = String.mk (slugifyL s.data)
  obtain ⟨hmem, hchain, hhead, hlast⟩ := slugifyL_clean s.data
  rw [slugifyL_id hmem hchain hhead hlast]

/-- Closed witness for C7: a concrete title with a non-empty slug. -/
theorem slugify_idempotent_witness :
    slugify (slugify "Space Marine Intercessor") = slugify "Space Marine Intercessor" :=
  slugify_idempotent "Space Marine Intercessor" (by decide)

/-! ### The slug derivation against its reference definition (C3)

The spec's reference derivation reads: "lowercase the title, strip
characters outside `[a-z0-9 -]` (keep only lowercase letters, digits,
space, hyphen), collapse whitespace runs to single hyphens, collapse
repeated hyphens, trim leading and trailing hyphens".  Its kept class
has only the literal space, while the code's class `[a-z0-9\s-]` keeps
every `\s` character; a title with a tab separates the two. -/

/-- The reference's kept class per the claim's words: lowercase
letters, digits, space, hyphen. -/
def keepCharRef (c : Char) : Bool :=
  isLowerAZ c || isDigit09 c || c == ' ' || c == '-'

/-- The claim's reference slug derivation (space-only class). -/
def slugifyRef (s : String) : String :=
  ⟨trimHy (collapseAux (· == '-') false (collapseAux isJsSpace false
    ((s.data.map Char.toLower).filter keepCharRef)))⟩

/-- The amended kept class: lowercase letters, digits, any `\s`
whitespace, hyphen. -/
def keepCharAmended (c : Char) : Bool :=
  isLowerAZ c || isDigit09 c || isJsSpace c || c == '-'

theorem length_dropWhile_le (p : Char → Bool) (l : List Char) :
    (l.dropWhile p).length ≤ l.length := by
  induction l with
  | nil => exact Nat.le_refl _
  | cons c rest ih =>
    rw [List.dropWhile_cons]
    by_cases hc : p c = true
    · rw [if_pos hc]
      exact Nat.le_succ_of_le ih
    · rw [if_neg hc]

/-- Replace each maximal run of `p`-characters by a single hyphen,
written the way the spec phrases it: emit a hyphen for the run, then
continue after the run. -/
def collapseRuns (p : Char → Bool) : List Char → List Char
  | [] => []
  | c :: rest =>
    if p c then '-' :: collapseRuns p (rest.dropWhile p)
    else c :: collapseRuns p rest
termination_by l => l.length
decreasing_by
  · exact Nat.lt_succ_of_le (length_dropWhile_le p rest)
  · exact Nat.lt_succ_of_le (Nat.le_refl _)

/-- The amended reference derivation: the run-based spec phrasing over
the amended class. -/
def slugifyAmendedRef (s : String) : String :=
  ⟨trimHy (collapseRuns (· == '-') (collapseRuns isJsSpace
    ((s.data.map Char.toLower).filter keepCharAmended)))⟩

theorem collapseAux_true_dropWhile {p : Char → Bool} (l : List Char) :
    collapseAux p true l = collapseAux p false (l.dropWhile p) := by
  induction l with
  | nil => rfl
  | cons c rest ih =>
    by_cases hc : p c = true
    · rw [collapseAux, if_pos hc, if_pos rfl, List.dropWhile_cons, if_pos hc, ih]
    · rw [collapseAux, if_neg (by simp [hc]), List.dropWhile_cons, if_neg hc,
        collapseAux, if_neg (by simp [hc])]

theorem collapseRuns_eq_aux {p : Char → Bool} :
    ∀ (n : Nat) (l : List Char), l.length ≤ n →
      collapseRuns p l = collapseAux p false l := by
  intro n
  induction n with
  | zero =>
    intro l hl
    rw [List.length_eq_zero.1 (Nat.le_zero.1 hl)]
    simp [collapseRuns, collapseAux]
  | succ n ih =>
    intro l hl
    cases l with
    | nil => simp [collapseRuns, collapseAux]
    | cons c rest =>
      rw [collapseRuns]
      by_cases hc : p c = true
      · rw [if_pos hc, collapseAux, if_pos hc, if_neg Bool.false_ne_true,
          collapseAux_true_dropWhile,
          ih _ (Nat.le_trans (length_dropWhile_le p rest) (Nat.le_of_succ_le_succ hl))]
      · rw [if_neg hc, collapseAux, if_neg (by simp [hc]),
          ih _ (Nat.le_of_succ_le_succ hl)]

theorem collapseRuns_eq {p : Char → Bool} (l : List Char) :
    collapseRuns p l = collapseAux p false l :=
  collapseRuns_eq_aux l.length l (Nat.le_refl _)

theorem keepCharAmended_eq (c : Char) : keepCharAmended c = keepChar c := by
  by_cases h : c = '-' <;> simp [keepCharAmended, keepChar, h]

/-- Counterexample to C3 as stated: on the title `"a\tb"` the code
keeps the tab (class `\s`) and collapses it to a hyphen, while the
claim's reference (space only) strips it. -/
theorem slugify_ref_counterexample :
    slugify "a\tb" = "a-b" ∧ slugifyRef "a\tb" = "ab" ∧
      slugify "a\tb" ≠ slugifyRef "a\tb" := by
  refine ⟨by decide, by decide, by decide⟩

/-- C3 amended: the slug derivation equals the reference definition
whose kept class is `[a-z0-9\s-]` — lowercase letters, digits, ANY
whitespace, hyphen — with whitespace runs collapsed to single hyphens,
hyphen runs collapsed, and leading/trailing hyphens trimmed; and when
the result is empty (with required fields present) save fails with the
empty-slug ValidationError, writing nothing. -/
theorem slugify_matches_amended_ref :
    (∀ s : String, slugify s = slugifyAmendedRef s) ∧
    (∀ (store : Store) (sub : Submission), requiredMissing sub = false →
      slugify sub.title = "" →
      handleSave store sub = (.validationError "Title produces an empty slug", store)) := by
  constructor
  · intro s
    show String.mk (slugifyL s.data) = _
    rw [slugifyAmendedRef, collapseRuns_eq, collapseRuns_eq,
      List.filter_congr fun c _ => keepCharAmended_eq c]
    rfl
  · intro store sub hreq hslug
    exact handleSave_emptySlug hreq hslug

/-- Closed witness for C3's amended theorem: a punctuation-only title
passes field validation and is rejected by slug derivation. -/
theorem slugify_matches_amended_ref_witness :
    handleSave sampleStore
      { title := "!!!", manufacturer := "M", date := "D", scale := "S",
        game := none, faction := none, order := none, photos := ["P"] } =
      (.validationError "Title produces an empty slug", sampleStore) :=
  slugify_matches_amended_ref.2 sampleStore _ (by decide) (by decide)

end Admin
